import Mathlib

/-!
A verification development for the ModulIO host-side serial driver
(`ModulIO.py`).  The Python source is shallowly embedded: module-level
mutable state becomes an explicit `MState` record, each Python function
becomes a Lean function from state to `Option` state (`none` models the
function raising an exception before mutating anything), and the sender
thread's per-iteration behaviour is modelled as a pure step function over
the two queues and the list of `Recv:` echoes consumed during the wait.
-/

/-! ## Python string helpers -/

/-- Python `str.strip()` whitespace set (space, tab, newline, carriage
return, vertical tab, form feed). -/
def isPySpace (c : Char) : Bool :=
  c == ' ' || c == '\t' || c == '\n' || c == '\r' || c == '\x0B' || c == '\x0C'

/-- Python `str.strip()`: remove leading and trailing whitespace. -/
def pyStrip (s : String) : String :=
  ⟨((s.data.dropWhile isPySpace).reverse.dropWhile isPySpace).reverse⟩

/-- Python `s.encode('ascii')`: the byte values of the string
(commands are ASCII throughout the driver). -/
def strBytes (s : String) : List Nat := s.data.map Char.toNat

/-! ## CRC-8 checksum

`crc8 = crcmod.predefined.mkCrcFun('crc-8')` (ModulIO.py line 148):
polynomial 0x107, not reflected, initial value 0, no output xor.
One bit step: shift left; if the top bit fell out, xor with the
polynomial; always reduce modulo 256. -/

/-- One bit of the MSB-first CRC-8 update (polynomial `x^8+x^2+x+1`). -/
def crc8Bit (c : Nat) : Nat :=
  if c < 128 then (2 * c) % 256 else ((2 * c) ^^^ 0x107) % 256

/-- Fold one input byte into the CRC accumulator: xor it in, then run
eight bit steps. -/
def crc8Byte (crc b : Nat) : Nat := crc8Bit^[8] ((crc ^^^ b) % 256)

/-- `crc8(bytes)`: the crcmod `crc-8` checksum, initial value 0. -/
def crc8 (bytes : List Nat) : Nat := bytes.foldl crc8Byte 0

/-! ## Hex rendering (Python `f"{checksum:02X}"`) -/

/-- One uppercase hexadecimal digit. -/
def hexDigitU (k : Nat) : Char :=
  if k < 10 then Char.ofNat (48 + k) else Char.ofNat (55 + k)

/-- Uppercase hexadecimal digits of `n`, most significant first. -/
def hexDigits (n : Nat) : List Char :=
  if _h : n < 16 then [hexDigitU n]
  else hexDigits (n / 16) ++ [hexDigitU (n % 16)]
termination_by n
decreasing_by exact Nat.div_lt_self (by omega) (by omega)

/-- Python `f"{n:02X}"` (ModulIO.py line 635): uppercase hex, left-padded
with zeros to width two. -/
def pyHex02X (n : Nat) : String :=
  ⟨List.replicate (2 - (hexDigits n).length) '0' ++ hexDigits n⟩

/-! ## Frame building (`_send_serial`, lines 633-636) -/

/-- The checksum computed at send time:
`checksum_hex = f"{crc8(command.encode('ascii')):02X}"`. -/
def checksumHexOf (command : String) : String :=
  pyHex02X (crc8 (strBytes command))

/-- `msg = f"{checksum_hex}; {command}\r\n"` (line 636). -/
def buildMsg (command : String) : String :=
  checksumHexOf command ++ "; " ++ command ++ "\r\n"

/-! ## Acknowledgment wait (`_send_serial`, lines 644-673)

The Python loop repeatedly takes the next echo from `recv_queue`,
compares its first two characters (`recv[0:2]`) with the checksum
computed at send time, retires the command on a match, keeps waiting on
a mismatch, and re-enqueues the command once the deadline elapses.  The
real-time deadline is abstracted to the finite list of echoes the loop
consumes before giving up: `ackLoop cks recvs = true` means the command
was retired, `false` means the deadline elapsed first. -/

def ackLoop (checksumHex : String) : List String → Bool
  | [] => false
  | recv :: rest =>
    if recv.take 2 == checksumHex then true else ackLoop checksumHex rest

/-- Result of one iteration of the `_send_serial` worker loop. -/
structure StepResult where
  command : String
  msg : String
  isPriority : Bool
  retired : Bool
  pq : List String
  sq : List String
deriving DecidableEq, Repr

/-- One iteration of `_send_serial` (lines 612-673): drain the stale
`recv_queue` entry (modelled by `recvs` containing only echoes that
arrive during this iteration's wait), take from the priority queue if
non-empty, else from the normal queue, else idle (`none`); frame the
command, transmit, and wait for a matching echo, re-enqueueing the
command at the back of its own queue on timeout. -/
def sendStep (pq sq : List String) (recvs : List String) : Option StepResult :=
  match pq with
  | command :: pqRest =>
    let ok := ackLoop (checksumHexOf command) recvs
    some { command := command, msg := buildMsg command, isPriority := true,
           retired := ok, pq := if ok then pqRest else pqRest ++ [command],
           sq := sq }
  | [] =>
    match sq with
    | command :: sqRest =>
      let ok := ackLoop (checksumHexOf command) recvs
      some { command := command, msg := buildMsg command, isPriority := false,
             retired := ok, pq := [],
             sq := if ok then sqRest else sqRest ++ [command] }
    | [] => none

/-! ## Devices and module-level state

The Python module keeps its state in globals (`names_in_order`,
`device_dict`, the queues, the recording thread handle, the serial
handle).  They are gathered into one record; `recording` stands for
`thread_record_data is not None` and `serOpen` for
`ser and ser.is_open`. -/

/-- A `Device` instance: `name`, `index`, `value` (aka `lastValue`,
`None` until telemetry reports one) and `pin` as set by
`Device.__init__`. -/
structure Device where
  name : String
  index : Nat
  value : Option String
  pin : String
deriving DecidableEq, Repr

structure MState where
  names_in_order : List String
  device_dict : List (String × Device)
  send_queue : List String
  priority_send_queue : List String
  recording : Bool
  recordingFile : Option String
  recording_queue : List (List String)
  serOpen : Bool
deriving DecidableEq, Repr

/-- The module state right after import: everything empty. -/
def initState : MState :=
  { names_in_order := [], device_dict := [], send_queue := [],
    priority_send_queue := [], recording := false, recordingFile := none,
    recording_queue := [], serOpen := false }

/-- `device_dict[name]` lookup; Python dict keys are unique, so the
first association wins. -/
def lookupDev (d : List (String × Device)) (n : String) : Option Device :=
  (d.find? (fun p => p.1 == n)).map (fun p => p.2)

/-- Queue capacities: `send_queue = queue.Queue(maxsize=100)`,
`priority_send_queue = queue.Queue(maxsize=10)` (lines 149-150). -/
def SEND_QUEUE_MAX : Nat := 100
def PRIORITY_QUEUE_MAX : Nat := 10
def MAX_DEVICES : Nat := 10

/-- `_serial_write(cmd, priority)` (lines 448-474): strip the command,
then `put` it on the chosen queue unless that queue is full, in which
case a `RuntimeError` is raised (modelled as `none`) with no state
change. -/
def serialWrite (cmd : String) (priority : Bool) (st : MState) : Option MState :=
  let cmd := pyStrip cmd
  if priority then
    if PRIORITY_QUEUE_MAX ≤ st.priority_send_queue.length then none
    else some { st with priority_send_queue := st.priority_send_queue ++ [cmd] }
  else
    if SEND_QUEUE_MAX ≤ st.send_queue.length then none
    else some { st with send_queue := st.send_queue ++ [cmd] }

/-- The `pin_str` each device subclass ends up with: `'b'`, `'l'`, `'m'`
pass the single pin `pins[0]` (so `str(pins)` of an int), `'p'` passes
the list `[pins[0], pins[1]]` joined with spaces; a missing pin or an
unknown type character raises before any state is touched. -/
def pinStrOf (char : Char) (pins : List Nat) : Option String :=
  match char, pins with
  | 'b', p :: _ => some (toString p)
  | 'l', p :: _ => some (toString p)
  | 'm', p :: _ => some (toString p)
  | 'p', d :: c :: _ => some (toString d ++ " " ++ toString c)
  | _, _ => none

/-- `create_device(char, name, pins)` (lines 299-356) together with
`Device.__init__` (lines 31-70): reject while recording, on a duplicate
name, or at the device cap; send `"s <char> <name> <pins>"` at high
priority (a full priority queue aborts with nothing mutated); then
assign `index = len(names_in_order)`, append the name to the order and
the device to the dict. -/
def createDevice (char : Char) (name : String) (pins : List Nat)
    (st : MState) : Option MState :=
  if st.recording then none
  else if (lookupDev st.device_dict name).isSome then none
  else if MAX_DEVICES ≤ st.names_in_order.length then none
  else
    match pinStrOf char pins with
    | none => none
    | some pinStr =>
      match serialWrite ("s " ++ String.singleton char ++ " " ++ name ++ " " ++ pinStr)
          true st with
      | none => none
      | some st1 =>
        let dev : Device :=
          { name := name, index := st1.names_in_order.length,
            value := none, pin := pinStr }
        some { st1 with
               names_in_order := st1.names_in_order ++ [name],
               device_dict := st1.device_dict ++ [(name, dev)] }

/-- `Device._set_index` (lines 120-133) applied through
`device_dict[n]._set_index(i)`: mutate the index of the device stored
under key `n` (keys are unique, so mapping over the list updates exactly
that device). -/
def setIndex (d : List (String × Device)) (n : String) (i : Nat) :
    List (String × Device) :=
  d.map (fun p => if p.1 = n then (p.1, { p.2 with index := i }) else p)

/-- The reindex loop of `remove_device` (lines 395-396):
`for i in range(idx, len(names_in_order)): device_dict[names_in_order[i]]._set_index(i)`. -/
def reindexFrom (d : List (String × Device)) (names : List String) (k : Nat) :
    List (String × Device) :=
  (List.range' k (names.length - k)).foldl
    (fun acc i => setIndex acc (names.getD i "") i) d

/-- `remove_device(name)` (lines 358-404): reject while recording or on
an unknown name; send `"r <idx>"` at high priority (a full priority
queue aborts before any registry mutation); then delete the dict entry,
pop the name at `idx` from the order, and reindex every device from
`idx` on.  A `pop` out of range would raise `IndexError`; that branch is
modelled as `none` and is unreachable from well-formed states. -/
def removeDevice (name : String) (st : MState) : Option MState :=
  if st.recording then none
  else
    match lookupDev st.device_dict name with
    | none => none
    | some dev =>
      match serialWrite ("r " ++ toString dev.index) true st with
      | none => none
      | some st1 =>
        if dev.index < st1.names_in_order.length then
          let dict1 := st1.device_dict.filter (fun p => p.1 != name)
          let names1 := st1.names_in_order.eraseIdx dev.index
          some { st1 with
                 names_in_order := names1,
                 device_dict := reindexFrom dict1 names1 dev.index }
        else none

/-- `Device.set_value(value)` (lines 82-94):
`_serial_write(f"c {self.index} {value}")` at normal priority, nothing
else. -/
def setValue (d : Device) (v : String) (st : MState) : Option MState :=
  serialWrite ("c " ++ toString d.index ++ " " ++ v) false st

/-! ## Telemetry update (`_update_data`, lines 496-526) -/

/-- `Device._update(value)` applied through `device_dict[key]._update(value)`:
set the `value` field of the device stored under `key`. -/
def devUpdate (d : List (String × Device)) (key value : String) :
    List (String × Device) :=
  d.map (fun p => if p.1 = key then (p.1, { p.2 with value := some value }) else p)

/-- The `while datalist:` loop of `_update_data` (lines 515-522): pop a
name and a value; update the device if the name is registered, else log
a warning and move on.  The guard has already ensured an even length, so
the one-element case is unreachable. -/
def updateLoop (d : List (String × Device)) : List String → List (String × Device)
  | key :: value :: rest =>
    updateLoop (if (lookupDev d key).isSome then devUpdate d key value else d) rest
  | _ => d

/-- Python `datalist[1::2]`: every second element starting at index 1
(the values of the name/value pairs). -/
def everySecond : List α → List α
  | [] => []
  | [x] => [x]
  | x :: _ :: rest => x :: everySecond rest

def pySliceOdd (l : List α) : List α := everySecond (l.drop 1)

/-- `_update_data(datalist)` (lines 496-526): if the list has even length
and exactly one name/value pair per registered device, enqueue the
timestamped values to the recording queue when recording, then run the
update loop; otherwise log a warning and change nothing.  `ts` stands
for `datetime.now().strftime(...)`. -/
def updateData (st : MState) (ts : String) (datalist : List String) : MState :=
  if datalist.length % 2 = 0 ∧ datalist.length / 2 = st.names_in_order.length then
    let st1 :=
      if st.recording then
        { st with recording_queue := st.recording_queue ++ [ts :: pySliceOdd datalist] }
      else st
    { st1 with device_dict := updateLoop st1.device_dict datalist }
  else st

/-! ## Recording lifecycle (lines 426-441, 754-783) -/

/-- `_stop_record_thread()` (lines 770-783): signal the stop event and
join; the recorder drains its queue into the file and the thread handle
is cleared. -/
def stopRecordThread (st : MState) : MState :=
  { st with recording := false, recordingFile := none }

/-- `_start_record_thread(filename)` (lines 754-768): if a record thread
is already alive it is stopped first, then a fresh recorder thread is
started on `filename`.  It never fails. -/
def startRecordThread (filename : String) (st : MState) : MState :=
  let st1 := if st.recording then stopRecordThread st else st
  { st1 with recording := true, recordingFile := some filename }

/-- `start_recording(filename)` (lines 426-441): raise if the serial
port is not open, otherwise hand over to `_start_record_thread`. -/
def startRecording (filename : String) (st : MState) : Option MState :=
  if st.serOpen then some (startRecordThread filename st) else none

/-! ## Operation sequences over the registry (for the index invariant)

`drain` models the sender thread retiring the command at the head of the
priority queue (a successfully acknowledged transmission); interleaving
it lets arbitrarily long create/remove sequences run without the bounded
queue of the model filling up, as it would not in the running program. -/

inductive RegOp where
  | create (char : Char) (name : String) (pins : List Nat)
  | remove (name : String)
  | drain
deriving DecidableEq

def applyOp (st : MState) : RegOp → Option MState
  | .create c n p => createDevice c n p st
  | .remove n => removeDevice n st
  | .drain => some { st with priority_send_queue := st.priority_send_queue.drop 1 }

def applyOps (st : MState) : List RegOp → Option MState
  | [] => some st
  | op :: ops =>
    match applyOp st op with
    | none => none
    | some st1 => applyOps st1 ops

/-! ## Basic facts about the checksum and its rendering -/

set_option maxRecDepth 40000 in
/-- The crcmod `crc-8` check value: `crc8(b"123456789") = 0xF4`. -/
theorem crc8_check_value : crc8 (strBytes "123456789") = 0xF4 := by rfl

theorem crc8Bit_lt (c : Nat) : crc8Bit c < 256 := by
  unfold crc8Bit
  split <;> exact Nat.mod_lt _ (by omega)

theorem crc8Byte_lt (crc b : Nat) : crc8Byte crc b < 256 := by
  unfold crc8Byte
  rw [show (8 : Nat) = 7 + 1 from rfl, Function.iterate_succ_apply']
  exact crc8Bit_lt _

theorem crc8_lt (bytes : List Nat) : crc8 bytes < 256 := by
  unfold crc8
  have main : ∀ (l : List Nat) (acc : Nat), acc < 256 → l.foldl crc8Byte acc < 256 := by
    intro l
    induction l with
    | nil => intro acc h; simpa using h
    | cons b rest ih =>
      intro acc _h
      rw [List.foldl_cons]
      exact ih (crc8Byte acc b) (crc8Byte_lt acc b)
  exact main bytes 0 (by omega)

/-- Uppercase hexadecimal digit characters. -/
def isUpperHexDigit (c : Char) : Prop :=
  ('0' ≤ c ∧ c ≤ '9') ∨ ('A' ≤ c ∧ c ≤ 'F')

/-- Numeric value of an uppercase hexadecimal digit. -/
def hexVal (c : Char) : Nat :=
  if c ≤ '9' then c.toNat - 48 else c.toNat - 55

instance (c : Char) : Decidable (isUpperHexDigit c) := by
  unfold isUpperHexDigit
  infer_instance

theorem hexDigitU_isUpperHex (k : Nat) (h : k < 16) : isUpperHexDigit (hexDigitU k) := by
  interval_cases k <;> decide

theorem hexVal_hexDigitU (k : Nat) (h : k < 16) : hexVal (hexDigitU k) = k := by
  interval_cases k <;> decide

theorem hexDigits_small (n : Nat) (h : n < 16) : hexDigits n = [hexDigitU n] := by
  unfold hexDigits
  simp [h]

theorem hexDigits_byte (n : Nat) (h16 : 16 ≤ n) (h : n < 256) :
    hexDigits n = [hexDigitU (n / 16), hexDigitU (n % 16)] := by
  rw [hexDigits]
  rw [dif_neg (by omega), hexDigits_small (n / 16) (by omega)]
  simp

theorem pyHex02X_byte (n : Nat) (h : n < 256) :
    ∃ c₁ c₂, (pyHex02X n).data = [c₁, c₂] ∧ isUpperHexDigit c₁ ∧ isUpperHexDigit c₂ ∧
      hexVal c₁ * 16 + hexVal c₂ = n := by
  by_cases h16 : n < 16
  · refine ⟨'0', hexDigitU n, ?_, by decide, hexDigitU_isUpperHex n h16, ?_⟩
    · simp [pyHex02X, hexDigits_small n h16, List.replicate]
    · rw [hexVal_hexDigitU n h16, show hexVal '0' = 0 from rfl]
      omega
  · refine ⟨hexDigitU (n / 16), hexDigitU (n % 16), ?_, hexDigitU_isUpperHex _ (by omega),
      hexDigitU_isUpperHex _ (by omega), ?_⟩
    · simp [pyHex02X, hexDigits_byte n (by omega) h]
    · rw [hexVal_hexDigitU _ (by omega), hexVal_hexDigitU _ (by omega)]
      omega

/-- C6: for every command string, the encoded wire frame is the CRC-8
checksum of the command's ASCII text rendered as exactly two uppercase
hex digits, followed by `"; "`, the command text, and `"\r\n"`. -/
theorem claim_C6_frame_format (command : String) :
    buildMsg command = checksumHexOf command ++ "; " ++ command ++ "\r\n" ∧
    (checksumHexOf command).length = 2 ∧
    (∀ c ∈ (checksumHexOf command).data, isUpperHexDigit c) ∧
    (∃ c₁ c₂, (checksumHexOf command).data = [c₁, c₂] ∧
      hexVal c₁ * 16 + hexVal c₂ = crc8 (strBytes command)) := by
  obtain ⟨c₁, c₂, hdata, hx₁, hx₂, hval⟩ :=
    pyHex02X_byte (crc8 (strBytes command)) (crc8_lt _)
  refine ⟨rfl, ?_, ?_, c₁, c₂, ?_, hval⟩
  · show (checksumHexOf command).data.length = 2
    rw [show (checksumHexOf command).data = (pyHex02X (crc8 (strBytes command))).data from rfl,
      hdata]
    rfl
  · intro c hc
    rw [show (checksumHexOf command).data = (pyHex02X (crc8 (strBytes command))).data from rfl,
      hdata] at hc
    simp only [List.mem_cons, List.not_mem_nil, or_false] at hc
    rcases hc with h | h
    · exact h ▸ hx₁
    · exact h ▸ hx₂
  · exact hdata

/-! ## Acknowledgment matching (claims C1, C4, C5) -/

theorem ackLoop_true_iff (cks : String) (recvs : List String) :
    ackLoop cks recvs = true ↔ ∃ recv ∈ recvs, recv.take 2 = cks := by
  induction recvs with
  | nil => simp [ackLoop]
  | cons r rest ih =>
    simp only [ackLoop]
    by_cases h : r.take 2 = cks
    · simp [h]
    · simp only [beq_iff_eq, if_neg h, ih, List.mem_cons]
      constructor
      · rintro ⟨recv, hmem, heq⟩; exact ⟨recv, Or.inr hmem, heq⟩
      · rintro ⟨recv, hmem | hmem, heq⟩
        · exact absurd (hmem ▸ heq) h
        · exact ⟨recv, hmem, heq⟩

/-- Helper: every transmitted frame is `buildMsg` of the transmitted
command, and its checksum is computed at send time from that command. -/
theorem sendStep_shape (pq sq recvs : List String) (r : StepResult)
    (h : sendStep pq sq recvs = some r) :
    r.msg = buildMsg r.command ∧
    r.retired = ackLoop (checksumHexOf r.command) recvs ∧
    (r.command ∈ pq ∨ r.command ∈ sq) := by
  match pq, h with
  | command :: pqRest, h =>
    rw [sendStep] at h
    cases h
    exact ⟨rfl, rfl, Or.inl (List.mem_cons_self _ _)⟩
  | [], h =>
    match sq, h with
    | command :: sqRest, h =>
      rw [sendStep] at h
      cases h
      exact ⟨rfl, rfl, Or.inr (List.mem_cons_self _ _)⟩

/-- C1: a transmitted command is retired if and only if one of the
`Recv:` echoes consumed during its wait has its first two characters
equal to the two-hex-digit checksum computed at send time for that
payload; a mismatching echo never retires it. -/
theorem claim_C1_ack_correctness (pq sq recvs : List String) (r : StepResult)
    (h : sendStep pq sq recvs = some r) :
    r.retired = true ↔ ∃ recv ∈ recvs, recv.take 2 = checksumHexOf r.command := by
  rw [(sendStep_shape pq sq recvs r h).2.1]
  exact ackLoop_true_iff _ recvs

def stepEx : StepResult :=
  (sendStep [] ["c 0 255"] ["FF", "25"]).getD ⟨"", "", false, false, [], []⟩

set_option maxRecDepth 40000 in
set_option maxHeartbeats 1000000 in
/-- Witness for C1 at a concrete input: the command `"c 0 255"` with a
mismatching echo `"FF"` followed by the matching echo `"25"`. -/
theorem claim_C1_witness :
    stepEx.retired = true ↔
      ∃ recv ∈ ["FF", "25"], recv.take 2 = checksumHexOf stepEx.command :=
  claim_C1_ack_correctness [] ["c 0 255"] ["FF", "25"] stepEx (by rfl)

/-- C4: when both queues are non-empty, the sender always takes the head
of the urgent (priority) queue, never a normal command. -/
theorem claim_C4_strict_priority (p : String) (ps : List String)
    (s : String) (ss : List String) (recvs : List String) :
    ∃ r, sendStep (p :: ps) (s :: ss) recvs = some r ∧
      r.command = p ∧ r.isPriority = true := by
  exact ⟨_, rfl, rfl, rfl⟩

/-- C5: a command that times out is re-enqueued byte-for-byte at the
back of the queue it came from, and any later transmission of that same
payload produces the identical frame (hence the identical checksum). -/
theorem claim_C5_retry_requeue (pq sq recvs : List String) (r : StepResult)
    (h : sendStep pq sq recvs = some r) (hfail : r.retired = false) :
    r.msg = buildMsg r.command ∧
    (r.isPriority = true → pq.head? = some r.command ∧ r.pq = pq.tail ++ [r.command] ∧ r.sq = sq) ∧
    (r.isPriority = false → sq.head? = some r.command ∧ r.sq = sq.tail ++ [r.command] ∧ r.pq = []) ∧
    (∀ pq' sq' recvs' r', sendStep pq' sq' recvs' = some r' → r'.command = r.command →
      r'.msg = r.msg) := by
  have hdet : ∀ pq' sq' recvs' r', sendStep pq' sq' recvs' = some r' → r'.command = r.command →
      r'.msg = r.msg := by
    intro pq' sq' recvs' r' h' hcmd
    rw [(sendStep_shape pq' sq' recvs' r' h').1, (sendStep_shape pq sq recvs r h).1, hcmd]
  match pq, h with
  | command :: pqRest, h =>
    rw [sendStep] at h
    cases h
    simp only at hfail
    refine ⟨rfl, fun _ => ⟨rfl, ?_, rfl⟩, fun hcontra => by simp at hcontra, hdet⟩
    simp [hfail]
  | [], h =>
    match sq, h with
    | command :: sqRest, h =>
      rw [sendStep] at h
      cases h
      simp only at hfail
      refine ⟨rfl, fun hcontra => by simp at hcontra, fun _ => ⟨rfl, ?_, rfl⟩, hdet⟩
      simp [hfail]

def stepFail : StepResult :=
  (sendStep [] ["c 0 255"] []).getD ⟨"", "", false, false, [], []⟩

set_option maxRecDepth 40000 in
set_option maxHeartbeats 1000000 in
/-- Witness for C5 at a concrete input: `"c 0 255"` on the normal queue
with no echo before the deadline reappears at the back of the normal
queue. -/
theorem claim_C5_witness :
    stepFail.msg = buildMsg stepFail.command ∧
    (stepFail.isPriority = true →
      [].head? = some stepFail.command ∧
      stepFail.pq = [].tail ++ [stepFail.command] ∧ stepFail.sq = ["c 0 255"]) ∧
    (stepFail.isPriority = false →
      ["c 0 255"].head? = some stepFail.command ∧
      stepFail.sq = ["c 0 255"].tail ++ [stepFail.command] ∧ stepFail.pq = []) ∧
    (∀ pq' sq' recvs' r', sendStep pq' sq' recvs' = some r' → r'.command = stepFail.command →
      r'.msg = stepFail.msg) :=
  claim_C5_retry_requeue [] ["c 0 255"] [] stepFail (by rfl) (by rfl)

/-! ## Queue backpressure (claim C7) -/

/-- C7: an enqueue onto a full queue fails immediately (the caller gets
an error, nothing is mutated, so the rejected command never reaches a
queue and hence is never transmitted — the last conjunct shows the
sender only ever transmits commands taken from a queue); an enqueue onto
a non-full queue appends the command. -/
theorem claim_C7_backpressure (cmd : String) (st : MState) :
    (PRIORITY_QUEUE_MAX ≤ st.priority_send_queue.length → serialWrite cmd true st = none) ∧
    (st.priority_send_queue.length < PRIORITY_QUEUE_MAX →
      serialWrite cmd true st =
        some { st with priority_send_queue := st.priority_send_queue ++ [pyStrip cmd] }) ∧
    (SEND_QUEUE_MAX ≤ st.send_queue.length → serialWrite cmd false st = none) ∧
    (st.send_queue.length < SEND_QUEUE_MAX →
      serialWrite cmd false st =
        some { st with send_queue := st.send_queue ++ [pyStrip cmd] }) ∧
    (∀ pq sq recvs r, sendStep pq sq recvs = some r → r.command ∈ pq ∨ r.command ∈ sq) := by
  refine ⟨?_, ?_, ?_, ?_, fun pq sq recvs r h => (sendStep_shape pq sq recvs r h).2.2⟩ <;>
    intro h
  · simp [serialWrite, h]
  · simp [serialWrite]
    omega
  · simp [serialWrite, h]
  · simp [serialWrite]
    omega

def stFullPriority : MState :=
  { initState with priority_send_queue := List.replicate 10 "t 1" }

set_option maxRecDepth 40000 in
/-- Witness for C7: a full priority queue rejects, the empty normal
queue accepts. -/
theorem claim_C7_witness :
    serialWrite "c 0 255" true stFullPriority = none ∧
    serialWrite "c 0 255" false initState =
      some { initState with send_queue := initState.send_queue ++ [pyStrip "c 0 255"] } :=
  ⟨(claim_C7_backpressure "c 0 255" stFullPriority).1 (by decide),
   (claim_C7_backpressure "c 0 255" initState).2.2.2.1 (by decide)⟩

/-! ## Recording restart semantics (claim C8)

The spec says starting a recording while one is active fails with Busy.
The code does the opposite: `_start_record_thread` (lines 759-762)
stops the running record thread and starts a fresh one on the new file,
and `start_recording` (lines 426-441) checks only that the serial port
is open. -/

def stActiveRec : MState :=
  { initState with serOpen := true, recording := true, recordingFile := some "a.csv" }

/-- Counterexample to C8 as stated: with a recording to `"a.csv"`
active, `start_recording("b.csv")` does not fail and the active
recording is replaced by one to `"b.csv"`. -/
theorem claim_C8_counterexample :
    startRecording "b.csv" stActiveRec ≠ none ∧
    (startRecording "b.csv" stActiveRec).map (fun s => s.recordingFile) =
      some (some "b.csv") := by
  decide

/-- C8 (amended): starting a recording while a recording session is
already active does not fail; the active recording is stopped and
replaced by a new session recording to the newly given file (only an
unopened serial port makes `start_recording` fail). -/
theorem claim_C8_restart (filename : String) (st : MState) (h : st.serOpen = true) :
    startRecording filename st = some (startRecordThread filename st) ∧
    (startRecordThread filename st).recording = true ∧
    (startRecordThread filename st).recordingFile = some filename ∧
    (startRecordThread filename st).device_dict = st.device_dict ∧
    (startRecordThread filename st).names_in_order = st.names_in_order := by
  refine ⟨by simp [startRecording, h], ?_, ?_, ?_, ?_⟩ <;>
    simp [startRecordThread, stopRecordThread] <;> split <;> rfl

/-- Witness for the amended C8 at a concrete input. -/
theorem claim_C8_witness :
    startRecording "c.csv" stActiveRec = some (startRecordThread "c.csv" stActiveRec) ∧
    (startRecordThread "c.csv" stActiveRec).recording = true ∧
    (startRecordThread "c.csv" stActiveRec).recordingFile = some "c.csv" ∧
    (startRecordThread "c.csv" stActiveRec).device_dict = stActiveRec.device_dict ∧
    (startRecordThread "c.csv" stActiveRec).names_in_order = stActiveRec.names_in_order :=
  claim_C8_restart "c.csv" stActiveRec (by rfl)

/-! ## set_value is enqueue-only (claim C9) -/

/-- C9: `Device.set_value` only enqueues `"c <index> <value>"` on the
normal-priority queue; the device registry (and with it every device's
`lastValue`, name, index and pins) is untouched. -/
theorem claim_C9_set_value_enqueue_only (d : Device) (v : String) (st st' : MState)
    (h : setValue d v st = some st') :
    st'.device_dict = st.device_dict ∧
    st'.names_in_order = st.names_in_order ∧
    st'.priority_send_queue = st.priority_send_queue ∧
    st'.recording_queue = st.recording_queue ∧
    st'.send_queue = st.send_queue ++ [pyStrip ("c " ++ toString d.index ++ " " ++ v)] ∧
    (∀ n dev, lookupDev st.device_dict n = some dev →
      lookupDev st'.device_dict n = some dev) := by
  unfold setValue serialWrite at h
  rw [if_neg (by simp)] at h
  split at h
  · exact absurd h (by simp)
  · cases h
    exact ⟨rfl, rfl, rfl, rfl, rfl, fun n dev hd => hd⟩

def dev0 : Device := { name := "led1", index := 0, value := none, pin := "9" }

def stOneDev : MState :=
  { initState with
    names_in_order := ["led1"],
    device_dict := [("led1", dev0)] }

def stOneDevAfter : MState := (setValue dev0 "255" stOneDev).getD initState

set_option maxRecDepth 40000 in
/-- Witness for C9 at a concrete input: setting `"led1"` (index 0) to
`"255"` only appends `"c 0 255"` to the normal queue. -/
theorem claim_C9_witness :
    stOneDevAfter.device_dict = stOneDev.device_dict ∧
    stOneDevAfter.names_in_order = stOneDev.names_in_order ∧
    stOneDevAfter.priority_send_queue = stOneDev.priority_send_queue ∧
    stOneDevAfter.recording_queue = stOneDev.recording_queue ∧
    stOneDevAfter.send_queue =
      stOneDev.send_queue ++ [pyStrip ("c " ++ toString dev0.index ++ " " ++ "255")] ∧
    (∀ n dev, lookupDev stOneDev.device_dict n = some dev →
      lookupDev stOneDevAfter.device_dict n = some dev) :=
  claim_C9_set_value_enqueue_only dev0 "255" stOneDev stOneDevAfter (by rfl)

/-! ## Telemetry atomicity (claim C3) -/

/-- C3: a telemetry row whose value count does not equal the device
count (or whose name/value list has odd length) is discarded whole: the
state — in particular every device's `lastValue` and the recording
queue — is unchanged. -/
theorem claim_C3_telemetry_atomic (st : MState) (ts : String) (datalist : List String)
    (h : datalist.length % 2 ≠ 0 ∨ datalist.length / 2 ≠ st.names_in_order.length) :
    updateData st ts datalist = st := by
  unfold updateData
  rw [if_neg]
  rintro ⟨h1, h2⟩
  rcases h with h | h <;> contradiction

/-- Witness for C3: the spec's stale-row scenario — one registered
device but a two-pair row — leaves the state untouched. -/
theorem claim_C3_witness :
    updateData stOneDev "12:00:00.000" ["led1", "1", "btn1", "1"] = stOneDev :=
  claim_C3_telemetry_atomic stOneDev "12:00:00.000" ["led1", "1", "btn1", "1"] (by decide)

/-! ## Lookup lemmas for the device dictionary -/

theorem lookupDev_nil (n : String) : lookupDev [] n = none := rfl

theorem lookupDev_cons (m : String) (dev : Device) (d : List (String × Device)) (n : String) :
    lookupDev ((m, dev) :: d) n = if m = n then some dev else lookupDev d n := by
  by_cases h : m = n
  · simp [lookupDev, List.find?, h]
  · have hb : (m == n) = false := beq_eq_false_iff_ne.mpr h
    simp [lookupDev, List.find?, hb, h]

theorem lookupDev_append (d₁ d₂ : List (String × Device)) (n : String) :
    lookupDev (d₁ ++ d₂) n = (lookupDev d₁ n).or (lookupDev d₂ n) := by
  simp only [lookupDev, List.find?_append]
  cases d₁.find? (fun p => p.1 == n) <;> simp [Option.or]

theorem lookupDev_filter_ne (d : List (String × Device)) (name n : String) :
    lookupDev (d.filter (fun p => p.1 != name)) n =
      if n = name then none else lookupDev d n := by
  induction d with
  | nil => simp [lookupDev_nil]
  | cons p d ih =>
    rcases p with ⟨m, dev⟩
    rw [List.filter_cons]
    by_cases hmn : m = name
    · rw [if_neg (by simp [hmn]), ih, lookupDev_cons]
      by_cases hn : n = name
      · simp [hn]
      · rw [if_neg hn, if_neg hn, if_neg (by rw [hmn]; exact fun hc => hn hc.symm)]
    · rw [if_pos (by simp [hmn]), lookupDev_cons, lookupDev_cons, ih]
      by_cases hm : m = n
      · rw [if_pos hm, if_pos hm, if_neg (hm ▸ hmn)]
      · rw [if_neg hm, if_neg hm]

/-- Lookup after mutating the device stored under one key (the common
shape of `_set_index` and `_update` through `device_dict[n]`). -/
theorem lookupDev_map_if (d : List (String × Device)) (n : String)
    (f : Device → Device) (m : String) :
    lookupDev (d.map (fun p => if p.1 = n then (p.1, f p.2) else p)) m =
      if n = m then (lookupDev d m).map f else lookupDev d m := by
  induction d with
  | nil => simp [lookupDev_nil]
  | cons p d ih =>
    rcases p with ⟨k, dev⟩
    simp only [List.map_cons]
    by_cases hk : k = n
    · subst hk
      rw [if_pos rfl]
      by_cases hm : k = m
      · subst hm
        rw [lookupDev_cons, lookupDev_cons, if_pos rfl, if_pos rfl, if_pos rfl]
        rfl
      · rw [lookupDev_cons, lookupDev_cons, if_neg hm, if_neg hm, ih, if_neg hm, if_neg hm]
    · rw [if_neg hk]
      by_cases hm : k = m
      · subst hm
        rw [lookupDev_cons, lookupDev_cons, if_pos rfl, if_pos rfl,
          if_neg (fun hc => hk hc.symm)]
      · rw [lookupDev_cons, lookupDev_cons, if_neg hm, if_neg hm, ih]

theorem lookupDev_setIndex (d : List (String × Device)) (n : String) (i : Nat) (m : String) :
    lookupDev (setIndex d n i) m =
      if n = m then (lookupDev d m).map (fun dev => { dev with index := i })
      else lookupDev d m :=
  lookupDev_map_if d n (fun dev => { dev with index := i }) m

theorem lookupDev_devUpdate (d : List (String × Device)) (k v : String) (m : String) :
    lookupDev (devUpdate d k v) m =
      if k = m then (lookupDev d m).map (fun dev => { dev with value := some v })
      else lookupDev d m :=
  lookupDev_map_if d k (fun dev => { dev with value := some v }) m

/-! ## Characterizing the reindex loop of `remove_device` -/

theorem reindexFrom_stop (d : List (String × Device)) (names : List String) (k : Nat)
    (h : names.length ≤ k) : reindexFrom d names k = d := by
  unfold reindexFrom
  rw [show names.length - k = 0 by omega]
  rfl

theorem reindexFrom_step (d : List (String × Device)) (names : List String) (k : Nat)
    (h : k < names.length) :
    reindexFrom d names k =
      reindexFrom (setIndex d (names.getD k "") k) names (k + 1) := by
  unfold reindexFrom
  rw [show names.length - k = (names.length - (k + 1)) + 1 by omega, List.range'_succ]
  rfl

/-- Keys that hold no position at or after `k` are untouched by the
reindex loop. -/
theorem reindexFrom_lookup_untouched (names : List String) (m : String) :
    ∀ (nn k : Nat) (d : List (String × Device)), names.length - k = nn →
      (∀ i, k ≤ i → names[i]? ≠ some m) →
      lookupDev (reindexFrom d names k) m = lookupDev d m := by
  intro nn
  induction nn with
  | zero =>
    intro k d hlen _h
    rw [reindexFrom_stop d names k (by omega)]
  | succ nn ih =>
    intro k d hlen hno
    have hk : k < names.length := by omega
    rw [reindexFrom_step d names k hk,
      ih (k + 1) _ (by omega) (fun i hi => hno i (by omega)), lookupDev_setIndex,
      if_neg]
    intro heq
    apply hno k le_rfl
    rw [← heq, List.getD_eq_getElem?_getD]
    rcases List.getElem?_eq_some.mp
      (List.getElem?_eq_getElem hk : names[k]? = some (names.get ⟨k, hk⟩)) with ⟨_h1, _⟩
    rw [List.getElem?_eq_getElem hk]
    rfl

/-- The key holding position `i ≥ k` gets its stored index set to `i` by
the reindex loop (and keeps its other fields). -/
theorem reindexFrom_lookup_set (names : List String) (hnd : names.Nodup) (m : String) :
    ∀ (nn k i : Nat) (d : List (String × Device)), names.length - k = nn →
      k ≤ i → names[i]? = some m →
      lookupDev (reindexFrom d names k) m =
        (lookupDev d m).map (fun dev => { dev with index := i }) := by
  intro nn
  induction nn with
  | zero =>
    intro k i d hlen hki him
    rcases List.getElem?_eq_some.mp him with ⟨hi, _⟩
    omega
  | succ nn ih =>
    intro k i d hlen hki him
    have hk : k < names.length := by omega
    rw [reindexFrom_step d names k hk]
    rcases List.getElem?_eq_some.mp him with ⟨hi, hgi⟩
    by_cases hik : i = k
    · subst hik
      have hgd : names.getD i "" = m := by
        rw [List.getD_eq_getElem?_getD, him]
        rfl
      rw [reindexFrom_lookup_untouched names m nn (i + 1) _ (by omega) ?_, hgd,
        lookupDev_setIndex, if_pos rfl]
      intro j hj hcontra
      have : i = j := List.getElem?_inj hi hnd (him.trans hcontra.symm)
      omega
    · have hgk : names.getD k "" ≠ m := by
        intro heq
        have hkm : names[k]? = some m := by
          rw [List.getElem?_eq_getElem hk]
          rw [List.getD_eq_getElem?_getD, List.getElem?_eq_getElem hk] at heq
          exact congrArg some heq
        have : k = i := List.getElem?_inj hk hnd (hkm.trans him.symm)
        omega
      rw [ih (k + 1) i _ (by omega) (by omega) him, lookupDev_setIndex, if_neg hgk]

/-- The reindex loop never adds or removes keys. -/
theorem reindexFrom_isSome (names : List String) (m : String) :
    ∀ (nn k : Nat) (d : List (String × Device)), names.length - k = nn →
      (lookupDev (reindexFrom d names k) m).isSome = (lookupDev d m).isSome := by
  intro nn
  induction nn with
  | zero =>
    intro k d hlen
    rw [reindexFrom_stop d names k (by omega)]
  | succ nn ih =>
    intro k d hlen
    have hk : k < names.length := by omega
    rw [reindexFrom_step d names k hk, ih (k + 1) _ (by omega), lookupDev_setIndex]
    split
    · cases lookupDev d m <;> rfl
    · rfl

/-! ## The registry well-formedness invariant -/

/-- Registry well-formedness: the name order has no duplicates, a name
is registered in the dictionary exactly when it is in the order, and
every registered device's stored index is its name's position in the
order. -/
def WF (st : MState) : Prop :=
  st.names_in_order.Nodup ∧
  (∀ n, (lookupDev st.device_dict n).isSome = true ↔ n ∈ st.names_in_order) ∧
  (∀ i n d, st.names_in_order[i]? = some n →
    lookupDev st.device_dict n = some d → d.index = i)

theorem WF_initState : WF initState := by
  refine ⟨List.nodup_nil, ?_, ?_⟩
  · intro n
    simp [initState, lookupDev_nil]
  · intro i n d hget _hl
    simp [initState] at hget

theorem lookupDev_single (n : String) (dev : Device) (m : String) :
    lookupDev [(n, dev)] m = if n = m then some dev else none := by
  rw [lookupDev_cons, lookupDev_nil]

/-- `_serial_write` never touches the registry. -/
theorem serialWrite_registry (cmd : String) (p : Bool) (st st1 : MState)
    (h : serialWrite cmd p st = some st1) :
    st1.names_in_order = st.names_in_order ∧ st1.device_dict = st.device_dict ∧
    st1.recording = st.recording := by
  unfold serialWrite at h
  dsimp only at h
  split at h <;> split at h
  · exact absurd h (by simp)
  · cases h
    exact ⟨rfl, rfl, rfl⟩
  · exact absurd h (by simp)
  · cases h
    exact ⟨rfl, rfl, rfl⟩

theorem WF_createDevice (char : Char) (name : String) (pins : List Nat) (st st' : MState)
    (hwf : WF st) (h : createDevice char name pins st = some st') : WF st' := by
  unfold createDevice at h
  split at h
  · exact absurd h (by simp)
  split at h
  · exact absurd h (by simp)
  split at h
  · exact absurd h (by simp)
  split at h
  · exact absurd h (by simp)
  split at h
  · exact absurd h (by simp)
  rename_i hnotrec hdup hmax _xpin pinStr hpin _xsw st1 hsw
  obtain ⟨hnames1, hdict1, _⟩ := serialWrite_registry _ _ _ _ hsw
  cases h
  have hnotmem : name ∉ st.names_in_order := by
    intro hm
    exact hdup ((hwf.2.1 name).mpr hm)
  refine ⟨?_, ?_, ?_⟩
  · show (st1.names_in_order ++ [name]).Nodup
    rw [hnames1, List.nodup_append]
    exact ⟨hwf.1, List.nodup_singleton name,
      by simpa [List.disjoint_singleton] using hnotmem⟩
  · intro m
    show (lookupDev (st1.device_dict ++ [(name, _)]) m).isSome = true ↔
      m ∈ st1.names_in_order ++ [name]
    rw [hdict1, hnames1, lookupDev_append, lookupDev_single]
    cases hl : lookupDev st.device_dict m with
    | some dd =>
      have hmem : m ∈ st.names_in_order := (hwf.2.1 m).mp (by simp [hl])
      simp [Option.or, List.mem_append, hmem]
    | none =>
      have hnmem : m ∉ st.names_in_order := by
        intro hm
        have := (hwf.2.1 m).mpr hm
        rw [hl] at this
        exact absurd this (by simp)
      by_cases hnm : name = m
      · simp [Option.or, hnm]
      · simp [Option.or, hnm, hnmem, List.mem_append]
        exact fun hc => hnm hc.symm
  · intro i m dd hget hlook
    show dd.index = i
    rw [show ({ st1 with
          names_in_order := st1.names_in_order ++ [name],
          device_dict := st1.device_dict ++
            [(name, { name := name, index := st1.names_in_order.length,
                      value := none, pin := pinStr })] } : MState).names_in_order =
        st1.names_in_order ++ [name] from rfl, hnames1] at hget
    rw [show ({ st1 with
          names_in_order := st1.names_in_order ++ [name],
          device_dict := st1.device_dict ++
            [(name, { name := name, index := st1.names_in_order.length,
                      value := none, pin := pinStr })] } : MState).device_dict =
        st1.device_dict ++
          [(name, { name := name, index := st1.names_in_order.length,
                    value := none, pin := pinStr })] from rfl, hdict1] at hlook
    by_cases hi : i < st.names_in_order.length
    · rw [List.getElem?_append_left hi] at hget
      have hmem : m ∈ st.names_in_order := List.mem_iff_getElem?.mpr ⟨i, hget⟩
      have hmn : m ≠ name := fun hc => hnotmem (hc ▸ hmem)
      rw [lookupDev_append, lookupDev_single, if_neg (fun hc => hmn hc.symm)] at hlook
      have hl : lookupDev st.device_dict m = some dd := by
        cases hx : lookupDev st.device_dict m <;> rw [hx] at hlook
        · exact absurd hlook (by simp [Option.or])
        · simpa [Option.or] using hlook
      exact hwf.2.2 i m dd hget hl
    · rw [List.getElem?_append_right (by omega)] at hget
      have hm : m = name ∧ i = st.names_in_order.length := by
        cases hd : i - st.names_in_order.length with
        | zero =>
          rw [hd] at hget
          simp at hget
          exact ⟨hget.symm, by omega⟩
        | succ j =>
          rw [hd] at hget
          simp at hget
      obtain ⟨rfl, rfl⟩ := hm
      have hlnone : lookupDev st.device_dict m = none := by
        cases hx : lookupDev st.device_dict m
        · rfl
        · exact absurd (by simp [hx]) hdup
      rw [lookupDev_append, hlnone, lookupDev_single, if_pos rfl] at hlook
      simp [Option.or] at hlook
      rw [← hlook, hnames1]

theorem reindexFrom_isSome' (d : List (String × Device)) (names : List String)
    (k : Nat) (m : String) :
    (lookupDev (reindexFrom d names k) m).isSome = (lookupDev d m).isSome :=
  reindexFrom_isSome names m (names.length - k) k d rfl

theorem reindexFrom_lookup_untouched' (d : List (String × Device)) (names : List String)
    (k : Nat) (m : String) (h : ∀ i, k ≤ i → names[i]? ≠ some m) :
    lookupDev (reindexFrom d names k) m = lookupDev d m :=
  reindexFrom_lookup_untouched names m (names.length - k) k d rfl h

theorem reindexFrom_lookup_set' (d : List (String × Device)) (names : List String)
    (k i : Nat) (m : String) (hnd : names.Nodup) (hki : k ≤ i)
    (him : names[i]? = some m) :
    lookupDev (reindexFrom d names k) m =
      (lookupDev d m).map (fun dev => { dev with index := i }) :=
  reindexFrom_lookup_set names hnd m (names.length - k) k i d rfl hki him

/-- Unfolding `remove_device` on success: the looked-up device, the
state after the priority enqueue, and the final registry shape. -/
theorem removeDevice_eq (name : String) (st st' : MState)
    (h : removeDevice name st = some st') :
    ∃ dev st1, lookupDev st.device_dict name = some dev ∧
      serialWrite ("r " ++ toString dev.index) true st = some st1 ∧
      dev.index < st1.names_in_order.length ∧
      st'.names_in_order = st1.names_in_order.eraseIdx dev.index ∧
      st'.device_dict = reindexFrom (st1.device_dict.filter (fun p => p.1 != name))
        (st1.names_in_order.eraseIdx dev.index) dev.index := by
  unfold removeDevice at h
  split at h
  · exact absurd h (by simp)
  split at h
  · exact absurd h (by simp)
  split at h
  · exact absurd h (by simp)
  split at h
  · cases h
    rename_i hrec xdev dev heq1 xsw st1 heq2 hlt
    exact ⟨dev, st1, heq1, heq2, hlt, rfl, rfl⟩
  · exact absurd h (by simp)

theorem WF_removeDevice (name : String) (st st' : MState)
    (hwf : WF st) (h : removeDevice name st = some st') : WF st' := by
  obtain ⟨dev, st1, hdev, hsw, hlt, hnames', hdict'⟩ := removeDevice_eq name st st' h
  obtain ⟨hnames1, hdict1, _⟩ := serialWrite_registry _ _ _ _ hsw
  rw [hnames1] at hnames' hlt
  rw [hnames1, hdict1] at hdict'
  have hmemname : name ∈ st.names_in_order := (hwf.2.1 name).mp (by simp [hdev])
  obtain ⟨j0, hj0⟩ := List.mem_iff_getElem?.mp hmemname
  have hidx0 : dev.index = j0 := hwf.2.2 j0 name dev hj0 hdev
  rw [← hidx0] at hj0
  have hnd1 : (st.names_in_order.eraseIdx dev.index).Nodup :=
    hwf.1.sublist (List.eraseIdx_sublist _ _)
  have hmem1 : ∀ m, m ∈ st.names_in_order.eraseIdx dev.index ↔
      (m ∈ st.names_in_order ∧ m ≠ name) := by
    intro m
    constructor
    · intro hm
      obtain ⟨i, hi⟩ := List.mem_iff_getElem?.mp hm
      rw [List.getElem?_eraseIdx] at hi
      by_cases hik : i < dev.index
      · rw [if_pos hik] at hi
        refine ⟨List.mem_iff_getElem?.mpr ⟨i, hi⟩, ?_⟩
        intro hcontra
        subst hcontra
        have := List.getElem?_inj (List.getElem?_eq_some.mp hi).1 hwf.1 (hi.trans hj0.symm)
        omega
      · rw [if_neg hik] at hi
        refine ⟨List.mem_iff_getElem?.mpr ⟨i + 1, hi⟩, ?_⟩
        intro hcontra
        subst hcontra
        have := List.getElem?_inj (List.getElem?_eq_some.mp hi).1 hwf.1 (hi.trans hj0.symm)
        omega
    · rintro ⟨hm, hmn⟩
      obtain ⟨i, hi⟩ := List.mem_iff_getElem?.mp hm
      have hine : i ≠ dev.index := by
        intro hcontra
        subst hcontra
        exact hmn (Option.some.inj (hi.symm.trans hj0))
      by_cases hik : i < dev.index
      · exact List.mem_iff_getElem?.mpr
          ⟨i, by rw [List.getElem?_eraseIdx, if_pos hik]; exact hi⟩
      · exact List.mem_iff_getElem?.mpr
          ⟨i - 1, by
            rw [List.getElem?_eraseIdx, if_neg (by omega), show i - 1 + 1 = i by omega]
            exact hi⟩
  refine ⟨?_, ?_, ?_⟩
  · rw [hnames']
    exact hnd1
  · intro m
    rw [hnames', hdict', reindexFrom_isSome', lookupDev_filter_ne]
    by_cases hm : m = name
    · rw [if_pos hm, hmem1 m]
      simp [hm]
    · rw [if_neg hm, hmem1 m]
      constructor
      · intro hs
        exact ⟨(hwf.2.1 m).mp hs, hm⟩
      · rintro ⟨hmm, _⟩
        exact (hwf.2.1 m).mpr hmm
  · intro i m dd hget hlook
    rw [hnames'] at hget
    rw [hdict'] at hlook
    have hi1 : i < (st.names_in_order.eraseIdx dev.index).length :=
      (List.getElem?_eq_some.mp hget).1
    by_cases hik : i < dev.index
    · have hgi : st.names_in_order[i]? = some m := by
        rw [List.getElem?_eraseIdx, if_pos hik] at hget
        exact hget
      have hno : ∀ jj, dev.index ≤ jj →
          (st.names_in_order.eraseIdx dev.index)[jj]? ≠ some m := by
        intro jj hjj hc
        have := List.getElem?_inj hi1 hnd1 (hget.trans hc.symm)
        omega
      rw [reindexFrom_lookup_untouched' _ _ _ _ hno, lookupDev_filter_ne] at hlook
      have hmn : m ≠ name := ((hmem1 m).mp (List.mem_iff_getElem?.mpr ⟨i, hget⟩)).2
      rw [if_neg hmn] at hlook
      exact hwf.2.2 i m dd hgi hlook
    · rw [reindexFrom_lookup_set' _ _ _ i m hnd1 (by omega) hget] at hlook
      cases hx : lookupDev (st.device_dict.filter (fun p => p.1 != name)) m with
      | none =>
        rw [hx] at hlook
        exact absurd hlook (by simp)
      | some d0 =>
        rw [hx] at hlook
        have := Option.some.inj hlook
        rw [← this]

/-- Removing the device at index `k` decrements by one the stored index
of every device whose index was greater than `k`; all other fields are
kept. -/
theorem removeDevice_shift (name : String) (st st' : MState) (dev : Device)
    (hwf : WF st) (hdev : lookupDev st.device_dict name = some dev)
    (h : removeDevice name st = some st') :
    ∀ m d, lookupDev st.device_dict m = some d → dev.index < d.index →
      lookupDev st'.device_dict m = some { d with index := d.index - 1 } := by
  obtain ⟨dev', st1, hdev', hsw, hlt, hnames', hdict'⟩ := removeDevice_eq name st st' h
  have hdd : dev' = dev := Option.some.inj (hdev'.symm.trans hdev)
  subst hdd
  obtain ⟨hnames1, hdict1, _⟩ := serialWrite_registry _ _ _ _ hsw
  rw [hnames1] at hnames' hlt
  rw [hnames1, hdict1] at hdict'
  intro m d hm hgt
  have hmemname : name ∈ st.names_in_order := (hwf.2.1 name).mp (by simp [hdev])
  obtain ⟨j0, hj0⟩ := List.mem_iff_getElem?.mp hmemname
  have hidx0 : dev'.index = j0 := hwf.2.2 j0 name dev' hj0 hdev
  rw [← hidx0] at hj0
  have hmemm : m ∈ st.names_in_order := (hwf.2.1 m).mp (by simp [hm])
  obtain ⟨j, hjm⟩ := List.mem_iff_getElem?.mp hmemm
  have hidxm : d.index = j := hwf.2.2 j m d hjm hm
  rw [← hidxm] at hjm
  have hmn : m ≠ name := by
    intro hc
    subst hc
    have : d = dev' := Option.some.inj (hm.symm.trans hdev)
    rw [this] at hgt
    omega
  have hnd1 : (st.names_in_order.eraseIdx dev'.index).Nodup :=
    hwf.1.sublist (List.eraseIdx_sublist _ _)
  have hpos1 : (st.names_in_order.eraseIdx dev'.index)[d.index - 1]? = some m := by
    rw [List.getElem?_eraseIdx, if_neg (by omega), show d.index - 1 + 1 = d.index by omega]
    exact hjm
  rw [hdict', reindexFrom_lookup_set' _ _ _ (d.index - 1) m hnd1 (by omega) hpos1,
    lookupDev_filter_ne, if_neg hmn, hm]
  rfl

theorem WF_applyOp (st st' : MState) (op : RegOp)
    (hwf : WF st) (h : applyOp st op = some st') : WF st' := by
  cases op with
  | create c n p => exact WF_createDevice c n p st st' hwf h
  | remove n => exact WF_removeDevice n st st' hwf h
  | drain =>
    cases h
    exact hwf

theorem WF_applyOps (ops : List RegOp) :
    ∀ st st' : MState, WF st → applyOps st ops = some st' → WF st' := by
  induction ops with
  | nil =>
    intro st st' hwf h
    simp only [applyOps, Option.some.injEq] at h
    exact h ▸ hwf
  | cons op ops ih =>
    intro st st' hwf h
    simp only [applyOps] at h
    cases hop : applyOp st op with
    | none =>
      rw [hop] at h
      exact absurd h (by simp)
    | some st1 =>
      rw [hop] at h
      exact ih st1 st' (WF_applyOp st st1 op hwf hop) h

/-- C2: after every successful sequence of create/remove operations the
registered indices form exactly `{0, ..., count-1}` with no gaps or
duplicates, the position of each name in the order equals its device's
stored index, and a removal at index `k` decrements by one the index of
every device whose index was greater than `k`. -/
theorem claim_C2_index_invariant (ops : List RegOp) (st : MState)
    (h : applyOps initState ops = some st) :
    (∀ j, (∃ n d, lookupDev st.device_dict n = some d ∧ d.index = j) ↔
      j < st.names_in_order.length) ∧
    (∀ n₁ n₂ d₁ d₂, lookupDev st.device_dict n₁ = some d₁ →
      lookupDev st.device_dict n₂ = some d₂ → d₁.index = d₂.index → n₁ = n₂) ∧
    (∀ i n, st.names_in_order[i]? = some n →
      ∃ d, lookupDev st.device_dict n = some d ∧ d.index = i) ∧
    (∀ name dev st', lookupDev st.device_dict name = some dev →
      removeDevice name st = some st' →
      ∀ m d, lookupDev st.device_dict m = some d → dev.index < d.index →
        lookupDev st'.device_dict m = some { d with index := d.index - 1 }) := by
  have hwf : WF st := WF_applyOps ops initState st WF_initState h
  have posOf : ∀ i n, st.names_in_order[i]? = some n →
      ∃ d, lookupDev st.device_dict n = some d ∧ d.index = i := by
    intro i n hget
    have hmem := List.mem_iff_getElem?.mpr ⟨i, hget⟩
    have hs := (hwf.2.1 n).mpr hmem
    cases hx : lookupDev st.device_dict n with
    | none =>
      rw [hx] at hs
      exact absurd hs (by simp)
    | some d => exact ⟨d, rfl, hwf.2.2 i n d hget hx⟩
  have idxPos : ∀ n d, lookupDev st.device_dict n = some d →
      st.names_in_order[d.index]? = some n := by
    intro n d hl
    have hmem : n ∈ st.names_in_order := (hwf.2.1 n).mp (by simp [hl])
    obtain ⟨i, hi⟩ := List.mem_iff_getElem?.mp hmem
    rw [← hwf.2.2 i n d hi hl] at hi
    exact hi
  refine ⟨?_, ?_, posOf,
    fun name dev st' hdev hrem => removeDevice_shift name st st' dev hwf hdev hrem⟩
  · intro j
    constructor
    · rintro ⟨n, d, hl, rfl⟩
      exact (List.getElem?_eq_some.mp (idxPos n d hl)).1
    · intro hj
      have hget : st.names_in_order[j]? = some (st.names_in_order.get ⟨j, hj⟩) :=
        List.getElem?_eq_getElem hj
      obtain ⟨d, hl, hdi⟩ := posOf j _ hget
      exact ⟨_, d, hl, hdi⟩
  · intro n₁ n₂ d₁ d₂ h₁ h₂ heq
    have p₁ := idxPos n₁ d₁ h₁
    have p₂ := idxPos n₂ d₂ h₂
    rw [heq] at p₁
    exact Option.some.inj (p₁.symm.trans p₂)

def opsEx : List RegOp :=
  [RegOp.create 'l' "led1" [9], RegOp.create 'b' "btn1" [2], RegOp.remove "led1"]

def stOps : MState := (applyOps initState opsEx).getD initState

set_option maxRecDepth 40000 in
/-- Witness for C2 at a concrete input: create `led1` and `btn1`, then
remove `led1`; the invariant holds for the resulting registry. -/
theorem claim_C2_witness :
    applyOps initState opsEx = some stOps ∧
    ((∀ j, (∃ n d, lookupDev stOps.device_dict n = some d ∧ d.index = j) ↔
      j < stOps.names_in_order.length) ∧
    (∀ n₁ n₂ d₁ d₂, lookupDev stOps.device_dict n₁ = some d₁ →
      lookupDev stOps.device_dict n₂ = some d₂ → d₁.index = d₂.index → n₁ = n₂) ∧
    (∀ i n, stOps.names_in_order[i]? = some n →
      ∃ d, lookupDev stOps.device_dict n = some d ∧ d.index = i) ∧
    (∀ name dev st', lookupDev stOps.device_dict name = some dev →
      removeDevice name stOps = some st' →
      ∀ m d, lookupDev stOps.device_dict m = some d → dev.index < d.index →
        lookupDev st'.device_dict m = some { d with index := d.index - 1 })) :=
  ⟨by rfl, claim_C2_index_invariant opsEx stOps (by rfl)⟩

/-! ## Telemetry rows with unregistered names (claim C10) -/

/-- A telemetry row presented as name/value pairs, flattened to the
`[name, value, name, value, ...]` shape `_update_data` receives. -/
def flattenPairs : List (String × String) → List String
  | [] => []
  | p :: rest => p.1 :: p.2 :: flattenPairs rest

theorem flattenPairs_length (pairs : List (String × String)) :
    (flattenPairs pairs).length = 2 * pairs.length := by
  induction pairs with
  | nil => rfl
  | cons p rest ih =>
    simp only [flattenPairs, List.length_cons, ih]
    omega

/-- The update loop viewed pair by pair. -/
def updFold (d : List (String × Device)) (pairs : List (String × String)) :
    List (String × Device) :=
  pairs.foldl
    (fun acc p => if (lookupDev acc p.1).isSome then devUpdate acc p.1 p.2 else acc) d

theorem updFold_nil (d : List (String × Device)) : updFold d [] = d := rfl

theorem updFold_cons (d : List (String × Device)) (p : String × String)
    (rest : List (String × String)) :
    updFold d (p :: rest) =
      updFold (if (lookupDev d p.1).isSome then devUpdate d p.1 p.2 else d) rest := rfl

theorem updateLoop_flatten (pairs : List (String × String)) :
    ∀ d, updateLoop d (flattenPairs pairs) = updFold d pairs := by
  induction pairs with
  | nil => intro d; rfl
  | cons p rest ih =>
    intro d
    rw [show flattenPairs (p :: rest) = p.1 :: p.2 :: flattenPairs rest from rfl]
    rw [show updateLoop d (p.1 :: p.2 :: flattenPairs rest) =
      updateLoop (if (lookupDev d p.1).isSome then devUpdate d p.1 p.2 else d)
        (flattenPairs rest) from rfl]
    rw [ih, updFold_cons]

theorem lookupDev_updStep (acc : List (String × Device)) (k v m : String) :
    lookupDev (if (lookupDev acc k).isSome then devUpdate acc k v else acc) m =
      if k = m then (lookupDev acc m).map (fun dev => { dev with value := some v })
      else lookupDev acc m := by
  by_cases hk : (lookupDev acc k).isSome
  · rw [if_pos hk, lookupDev_devUpdate]
  · rw [if_neg hk]
    by_cases hm : k = m
    · subst hm
      cases hx : lookupDev acc k with
      | none => rw [if_pos rfl]; rfl
      | some d0 =>
        rw [hx] at hk
        exact absurd rfl hk
    · rw [if_neg hm]

theorem updFold_not_mem (pairs : List (String × String)) (m : String) :
    ∀ d, m ∉ pairs.map Prod.fst → lookupDev (updFold d pairs) m = lookupDev d m := by
  induction pairs with
  | nil => intro d _; rfl
  | cons p rest ih =>
    intro d hm
    simp only [List.map_cons, List.mem_cons, not_or] at hm
    rw [updFold_cons, ih _ hm.2, lookupDev_updStep, if_neg (fun hc => hm.1 hc.symm)]

theorem updFold_mem (pairs : List (String × String)) (k v : String) :
    ∀ d, (pairs.map Prod.fst).Nodup → (k, v) ∈ pairs →
      lookupDev (updFold d pairs) k =
        (lookupDev d k).map (fun dev => { dev with value := some v }) := by
  induction pairs with
  | nil =>
    intro d _ hmem
    simp at hmem
  | cons p rest ih =>
    intro d hnd hmem
    obtain ⟨k', v'⟩ := p
    simp only [List.map_cons, List.nodup_cons] at hnd
    obtain ⟨hknotin, hndrest⟩ := hnd
    rw [updFold_cons]
    rcases List.mem_cons.mp hmem with heq | hmem'
    · cases heq
      rw [updFold_not_mem rest k _ hknotin, lookupDev_updStep, if_pos rfl]
    · have hkk' : k' ≠ k := by
        intro hc
        subst hc
        exact hknotin (List.mem_map.mpr ⟨(k', v), hmem', rfl⟩)
      rw [ih _ hndrest hmem', lookupDev_updStep, if_neg hkk']

/-- What `_update_data` does to the dictionary on a complete row. -/
theorem updateData_dict (st : MState) (ts : String) (pairs : List (String × String))
    (hlen : pairs.length = st.names_in_order.length) :
    (updateData st ts (flattenPairs pairs)).device_dict = updFold st.device_dict pairs := by
  unfold updateData
  rw [if_pos ⟨by rw [flattenPairs_length]; omega, by rw [flattenPairs_length]; omega⟩]
  by_cases hr : st.recording = true <;> simp [hr, updateLoop_flatten]

/-- C10: a telemetry row whose pair count matches the device count but
which contains unregistered names is not discarded: values paired with
registered names are applied, unregistered names are skipped (no entry
appears or changes for them), and devices not named in the row keep
their lookup result — the completeness check compares only lengths. -/
theorem claim_C10_unregistered_skipped (st : MState) (ts : String)
    (pairs : List (String × String))
    (hlen : pairs.length = st.names_in_order.length)
    (hnd : (pairs.map Prod.fst).Nodup) :
    (∀ k v, (k, v) ∈ pairs → ∀ d, lookupDev st.device_dict k = some d →
      lookupDev (updateData st ts (flattenPairs pairs)).device_dict k =
        some { d with value := some v }) ∧
    (∀ k, lookupDev st.device_dict k = none →
      lookupDev (updateData st ts (flattenPairs pairs)).device_dict k = none) ∧
    (∀ k, k ∉ pairs.map Prod.fst →
      lookupDev (updateData st ts (flattenPairs pairs)).device_dict k =
        lookupDev st.device_dict k) := by
  rw [updateData_dict st ts pairs hlen]
  refine ⟨?_, ?_, ?_⟩
  · intro k v hmem d hd
    rw [updFold_mem pairs k v st.device_dict hnd hmem, hd]
    rfl
  · intro k hk
    by_cases hmem : k ∈ pairs.map Prod.fst
    · obtain ⟨a, ha, hfst⟩ := List.mem_map.mp hmem
      have ha' : (k, a.2) ∈ pairs := by
        rw [← hfst]
        simpa using ha
      rw [updFold_mem pairs k a.2 st.device_dict hnd ha', hk]
      rfl
    · rw [updFold_not_mem pairs k _ hmem]
      exact hk
  · intro k hk
    exact updFold_not_mem pairs k _ hk

def devBtn : Device := { name := "btn1", index := 0, value := none, pin := "2" }
def devLed2 : Device := { name := "led2", index := 1, value := none, pin := "5" }

def stTwoDev : MState :=
  { initState with
    names_in_order := ["btn1", "led2"],
    device_dict := [("btn1", devBtn), ("led2", devLed2)] }

def pairsEx : List (String × String) := [("ghost", "9"), ("btn1", "1")]

set_option maxRecDepth 40000 in
/-- Witness for C10 at a concrete input: a row naming the unregistered
`"ghost"` and the registered `"btn1"` still applies `"1"` to `btn1`. -/
theorem claim_C10_witness :
    (∀ k v, (k, v) ∈ pairsEx → ∀ d, lookupDev stTwoDev.device_dict k = some d →
      lookupDev (updateData stTwoDev "12:00" (flattenPairs pairsEx)).device_dict k =
        some { d with value := some v }) ∧
    (∀ k, lookupDev stTwoDev.device_dict k = none →
      lookupDev (updateData stTwoDev "12:00" (flattenPairs pairsEx)).device_dict k = none) ∧
    (∀ k, k ∉ pairsEx.map Prod.fst →
      lookupDev (updateData stTwoDev "12:00" (flattenPairs pairsEx)).device_dict k =
        lookupDev stTwoDev.device_dict k) :=
  claim_C10_unregistered_skipped stTwoDev "12:00" pairsEx (by decide) (by decide)
